import Mathlib

/-!
Verification of the BillBuster schedule compiler and device programming
pipeline (`inverter_logic.py`, `coordinator.py`).

Timestamps are modelled as minutes since an epoch (`Nat`); the source's
`timedelta(minutes=1)` is `+ 1` and `strftime("%H:%M")` is `strftimeHM`,
which keeps only the minute-of-day as an (hour, minute) pair.

Note on the source: the class body of `BaseInverter` defines
`async_run_schedule_update` and `_program_inverter` twice; in Python the
second definition of each shadows the first, so the definitions below
embed the second (effective) definitions.  In particular the effective
`async_run_schedule_update` never assigns `self.next_run`.
-/

namespace BillBuster

/-- Operating mode strings `"charge" | "discharge" | "idle"` of the source. -/
inductive Mode where
  | charge
  | discharge
  | idle
deriving DecidableEq, Repr

/-- One row of the loaded CSV `DataFrame`: timestamp (minutes), signed power
(`P_hybrid_inverter`), and the `mode` column, absent (`none`) until
`generate_intervals` assigns it. -/
structure Row where
  timestamp : Nat
  power : Int
  mode : Option Mode
deriving DecidableEq, Repr

/-- `get_mode` of `DeyeInverter.generate_intervals`:
`p > 0 → discharge`, `p < 0 → charge`, otherwise `idle`. -/
def get_mode (p : Int) : Mode :=
  if p > 0 then Mode.discharge else if p < 0 then Mode.charge else Mode.idle

/-- Reading the `mode` column of a row (always set once `setModes` ran). -/
def rowMode (r : Row) : Mode :=
  r.mode.getD Mode.idle

/-- `self.df["mode"] = self.df["P_hybrid_inverter"].apply(get_mode)`:
the in-place column assignment, as a state transformer on the frame. -/
def setModes (rows : List Row) : List Row :=
  rows.map fun r => ⟨r.timestamp, r.power, some (get_mode r.power)⟩

/-- An interval row `{start_time, stop_time, mode}` built by
`generate_intervals`. -/
structure Interval where
  start_time : Nat
  stop_time : Nat
  mode : Mode
deriving DecidableEq, Repr

/-- The coalescing loop of `generate_intervals` (`for i in range(1, len(df))`):
state is `start_time`, `current_mode` and the previous row's timestamp; a mode
change closes the interval at the previous timestamp and reopens at the
current one; after the scan the final interval closes at the last timestamp. -/
def coalesceLoop (start_time : Nat) (current_mode : Mode) (prev : Nat) :
    List Row → List Interval
  | [] => [⟨start_time, prev, current_mode⟩]
  | r :: rest =>
    if rowMode r ≠ current_mode then
      ⟨start_time, prev, current_mode⟩ ::
        coalesceLoop r.timestamp (rowMode r) r.timestamp rest
    else
      coalesceLoop start_time current_mode r.timestamp rest

/-- The raw interval list produced by the coalescing loop, seeded with the
first row's timestamp and mode. -/
def raw_intervals (rows : List Row) : List Interval :=
  match rows with
  | [] => []
  | r :: rest => coalesceLoop r.timestamp (rowMode r) r.timestamp rest

/-- The padding loop: each synthetic interval starts one minute after the
previous stop (`next_start = last_stop + timedelta(minutes=1)`) and stops one
minute later (`next_stop = next_start + timedelta(minutes=1)`), mode idle. -/
def padIdle (last_stop : Nat) : Nat → List Interval
  | 0 => []
  | n + 1 =>
    ⟨last_stop + 1, last_stop + 1 + 1, Mode.idle⟩ :: padIdle (last_stop + 1 + 1) n

/-- Capacity adaptation of `generate_intervals`: `intervals_df.head(6)`, then
if fewer than 6 remain, append `6 - len` synthetic idle intervals.  The
`none` branch models the `iloc[-1]` exception on an empty frame, caught by
the surrounding `except` which returns an empty `DataFrame`. -/
def adapt (l : List Interval) : List Interval :=
  let t := l.take 6
  if t.length < 6 then
    match t.getLast? with
    | some last => t ++ padIdle last.stop_time (6 - t.length)
    | none => []
  else t

/-- `DeyeInverter.generate_intervals`: returns the mutated frame (the `mode`
column assignment persists on `self.df`) and the final interval list.  An
empty frame short-circuits to an empty result without mutating the frame. -/
def generate_intervals (rows : List Row) : List Row × List Interval :=
  match rows with
  | [] => ([], [])
  | _ :: _ => (setModes rows, adapt (raw_intervals (setModes rows)))

/-- Device configuration held on the inverter object (mirrors the attribute
names of `BaseInverter`). -/
structure DeviceConfig where
  minSoC_percent : Int
  maxSoC_percent : Int
  inverter_power : Int
  peak_charge_power : Int
deriving DecidableEq, Repr

/-- `t.strftime("%H:%M")`: the zero-padded hour:minute string, modelled as the
(hour, minute) pair of the minute-of-day; the date is discarded. -/
def strftimeHM (t : Nat) : Nat × Nat :=
  ((t % 1440) / 60, (t % 1440) % 60)

/-- One call payload of `inverter_program.update_program(...)`. -/
structure ProgramSlot where
  index : Nat
  start_t : Nat × Nat
  stop_t : Nat × Nat
  soc : Int
  power : Int
  grid_ch : Bool
  gen_ch : Bool
deriving DecidableEq, Repr

/-- The per-interval body of the loop in the effective `_program_inverter`:
widen a zero-length interval by one minute before formatting the stop time;
`soc = maxSoC if charge else minSoC`; `power = peak_charge_power if charge
else inverter_power`, overridden to `1` for idle; `grid_ch = (mode ==
"charge")`; `gen_ch = False`. -/
def slotOf (cfg : DeviceConfig) (index : Nat) (iv : Interval) : ProgramSlot :=
  let stop_time_dt :=
    if iv.start_time = iv.stop_time then iv.stop_time + 1 else iv.stop_time
  let soc := if iv.mode = Mode.charge then cfg.maxSoC_percent else cfg.minSoC_percent
  let power0 := if iv.mode = Mode.charge then cfg.peak_charge_power else cfg.inverter_power
  let power : Int := if iv.mode = Mode.idle then 1 else power0
  ⟨index, strftimeHM iv.start_time, strftimeHM stop_time_dt, soc, power,
    decide (iv.mode = Mode.charge), false⟩

/-- Outcomes of the fallible `SellProgrammer` operations, supplied by the
environment: success/failure of the constructor (connect), of each
`update_program` call by slot index, of `show_as_screen`, of
`upload_settings` and of `disconnect`. -/
structure Device where
  connectOk : Bool
  writeOk : Nat → Bool
  showOk : Bool
  uploadOk : Bool
  disconnectOk : Bool

/-- Observable device interactions of `_program_inverter`, in order. -/
inductive DevAction where
  | connect
  | write (s : ProgramSlot)
  | show_screen
  | upload
  | disconnect
deriving DecidableEq, Repr

/-- The slot-writing loop: attempts `update_program` for each interval in
order; a raised exception (modelled by `writeOk index = false`) aborts the
remaining writes.  Returns the attempted actions and whether all succeeded. -/
def writeSlots (dev : Device) (cfg : DeviceConfig) :
    Nat → List Interval → List DevAction × Bool
  | _, [] => ([], true)
  | i, iv :: rest =>
    if dev.writeOk i then
      let p := writeSlots dev cfg (i + 1) rest
      (DevAction.write (slotOf cfg i iv) :: p.1, p.2)
    else
      ([DevAction.write (slotOf cfg i iv)], false)

/-- The effective `_program_inverter`: construct the `SellProgrammer`
(connect) outside the `try`, run the slot loop, then `show_as_screen` and
`upload_settings`; the `finally` always attempts `disconnect`, whose own
failure is only logged and never changes the outcome. -/
def program_inverter (dev : Device) (cfg : DeviceConfig) (ivs : List Interval) :
    List DevAction × Bool :=
  if dev.connectOk then
    let w := writeSlots dev cfg 0 ivs
    let body : List DevAction × Bool :=
      if w.2 then
        if dev.showOk then
          if dev.uploadOk then (w.1 ++ [DevAction.show_screen, DevAction.upload], true)
          else (w.1 ++ [DevAction.show_screen, DevAction.upload], false)
        else (w.1 ++ [DevAction.show_screen], false)
      else (w.1, false)
    (DevAction.connect :: body.1 ++ [DevAction.disconnect], body.2)
  else ([DevAction.connect], false)

/-- One cycle outcome: the boolean returned by `async_run_schedule_update`,
the device interactions performed, and the value of `self.next_run`
afterwards. -/
structure CycleResult where
  success : Bool
  trace : List DevAction
  next_run : Option Nat
deriving Repr

/-- The effective (second) `async_run_schedule_update`: abort on a failed
load or empty frame, abort on an empty interval frame, otherwise program the
inverter, returning `True` on success and `False` on any exception.  This
definition never assigns `self.next_run`; the field is passed through
unchanged from its prior value. -/
def async_run_schedule_update (dev : Device) (cfg : DeviceConfig)
    (load_ok : Bool) (rows : List Row) (next_run0 : Option Nat) : CycleResult :=
  if load_ok = false ∨ rows = [] then ⟨false, [], next_run0⟩
  else
    let intervals := (generate_intervals rows).2
    if intervals = [] then ⟨false, [], next_run0⟩
    else
      let p := program_inverter dev cfg intervals
      ⟨p.2, p.1, next_run0⟩

/-- A concrete device configuration: min SoC 10 %, max SoC 95 %, rated power
5000 W, peak charge power 3000 W. -/
def cfg0 : DeviceConfig := ⟨10, 95, 5000, 3000⟩

/-- A device on which every operation succeeds. -/
def allOk : Device := ⟨true, fun _ => true, true, true, true⟩

/-- Scenario A readings: charge, charge, discharge, idle. -/
def rows0 : List Row := [⟨0, -5, none⟩, ⟨1, -5, none⟩, ⟨2, 3, none⟩, ⟨3, 0, none⟩]

/-- Claim C5: the parameter mapper is total over valid modes: charge slots get
`soc = maxSoC_percent`, `power = peak_charge_power`, grid charging on;
discharge slots get `soc = minSoC_percent`, `power = inverter_power`, grid
charging off; idle slots get `soc = minSoC_percent`, `power = 1` regardless of
configuration, grid charging off; generator charging is always off. -/
theorem C5_parameter_mapper (cfg : DeviceConfig) (i : Nat) (s t : Nat) :
    ((slotOf cfg i ⟨s, t, Mode.charge⟩).soc = cfg.maxSoC_percent
      ∧ (slotOf cfg i ⟨s, t, Mode.charge⟩).power = cfg.peak_charge_power
      ∧ (slotOf cfg i ⟨s, t, Mode.charge⟩).grid_ch = true)
    ∧ ((slotOf cfg i ⟨s, t, Mode.discharge⟩).soc = cfg.minSoC_percent
      ∧ (slotOf cfg i ⟨s, t, Mode.discharge⟩).power = cfg.inverter_power
      ∧ (slotOf cfg i ⟨s, t, Mode.discharge⟩).grid_ch = false)
    ∧ ((slotOf cfg i ⟨s, t, Mode.idle⟩).soc = cfg.minSoC_percent
      ∧ (slotOf cfg i ⟨s, t, Mode.idle⟩).power = 1
      ∧ (slotOf cfg i ⟨s, t, Mode.idle⟩).grid_ch = false)
    ∧ (∀ m : Mode, (slotOf cfg i ⟨s, t, m⟩).gen_ch = false) := by
  refine ⟨⟨?_, ?_, ?_⟩, ⟨?_, ?_, ?_⟩, ⟨?_, ?_, ?_⟩, fun m => ?_⟩ <;>
    simp [slotOf]

/-- Claim C7: with six or more raw intervals, capacity adaptation keeps
exactly the first six in order and drops the rest. -/
theorem C7_truncation (l : List Interval) (h : 6 ≤ l.length) :
    adapt l = l.take 6 ∧ (adapt l).length = 6 := by
  have hlen : (l.take 6).length = 6 := by
    simp [List.length_take]
    omega
  constructor
  · simp [adapt, hlen]
  · simp [adapt, hlen]

/-- Nine concrete raw intervals for the truncation scenario. -/
def ivs9 : List Interval :=
  [⟨0, 1, Mode.charge⟩, ⟨2, 3, Mode.discharge⟩, ⟨4, 5, Mode.idle⟩,
   ⟨6, 7, Mode.charge⟩, ⟨8, 9, Mode.discharge⟩, ⟨10, 11, Mode.idle⟩,
   ⟨12, 13, Mode.charge⟩, ⟨14, 15, Mode.discharge⟩, ⟨16, 17, Mode.idle⟩]

/-- Witness for C7 at a nine-interval input. -/
theorem C7_truncation_witness :
    adapt ivs9 = ivs9.take 6 ∧ (adapt ivs9).length = 6 :=
  C7_truncation ivs9 (by decide)
/-- Each synthetic idle interval produced by the padding loop spans exactly
one minute and has mode idle. -/
theorem padIdle_mem : ∀ (n s : Nat), ∀ iv ∈ padIdle s n,
    iv.mode = Mode.idle ∧ iv.stop_time = iv.start_time + 1 := by
  intro n
  induction n with
  | zero => intro s iv h; simp [padIdle] at h
  | succ n ih =>
    intro s iv h
    rcases (by simpa [padIdle] using h : iv = ⟨s + 1, s + 1 + 1, Mode.idle⟩ ∨ iv ∈ padIdle (s + 1 + 1) n) with h | h
    · subst h; exact ⟨rfl, rfl⟩
    · exact ih _ iv h

/-- The padding loop produces exactly `n` intervals. -/
theorem padIdle_length : ∀ (n s : Nat), (padIdle s n).length = n := by
  intro n
  induction n with
  | zero => intro s; rfl
  | succ n ih => intro s; simp [padIdle, ih]

/-- The padded tail chains onto any interval stopping at `s`: each next start
is the previous stop plus one minute. -/
theorem padIdle_chain : ∀ (n : Nat) (I : Interval) (s : Nat), I.stop_time = s →
    List.Chain (fun I J => J.start_time = I.stop_time + 1) I (padIdle s n) := by
  intro n
  induction n with
  | zero => intro I s _; exact List.Chain.nil
  | succ n ih =>
    intro I s hs
    refine List.Chain.cons (by simp [hs]) (ih _ _ rfl)

/-- Claim C3: when fewer than six intervals are coalesced, capacity
adaptation appends exactly `6 - len` synthetic idle intervals, each starting
one minute after the previous stop and spanning exactly one minute, and the
padded tail chains onto the last real interval with no gaps; the result has
length exactly six. -/
theorem C3_padding (l : List Interval) (lastIv : Interval)
    (hlen : l.length < 6) (hlast : l.getLast? = some lastIv) :
    adapt l = l ++ padIdle lastIv.stop_time (6 - l.length)
    ∧ (adapt l).length = 6
    ∧ ((adapt l).drop l.length).length = 6 - l.length
    ∧ (∀ iv ∈ (adapt l).drop l.length,
        iv.mode = Mode.idle ∧ iv.stop_time = iv.start_time + 1)
    ∧ List.Chain (fun I J => J.start_time = I.stop_time + 1) lastIv
        ((adapt l).drop l.length) := by
  have htake : l.take 6 = l := List.take_of_length_le (by omega)
  have heq : adapt l = l ++ padIdle lastIv.stop_time (6 - l.length) := by
    simp only [adapt, htake]
    rw [if_pos hlen, hlast]
  have hdrop : (adapt l).drop l.length = padIdle lastIv.stop_time (6 - l.length) := by
    rw [heq, List.drop_left]
  refine ⟨heq, ?_, ?_, ?_, ?_⟩
  · rw [heq]
    simp [padIdle_length]
    omega
  · rw [hdrop, padIdle_length]
  · rw [hdrop]
    exact padIdle_mem _ _
  · rw [hdrop]
    exact padIdle_chain _ _ _ rfl

/-- Three concrete raw intervals for the padding scenario. -/
def ivs3 : List Interval :=
  [⟨0, 1, Mode.charge⟩, ⟨2, 2, Mode.discharge⟩, ⟨3, 3, Mode.idle⟩]

/-- Witness for C3 at a three-interval input. -/
theorem C3_padding_witness :
    adapt ivs3 = ivs3 ++ padIdle 3 3 ∧ (adapt ivs3).length = 6 :=
  ⟨(C3_padding ivs3 ⟨3, 3, Mode.idle⟩ (by decide) rfl).1,
   (C3_padding ivs3 ⟨3, 3, Mode.idle⟩ (by decide) rfl).2.1⟩

/-- Readings whose first coalesced run spans exactly 24 hours (600 = 10:00,
2040 = 10:00 the next day), followed by a mode change. -/
def rows24h : List Row := [⟨600, 5, none⟩, ⟨2040, 5, none⟩, ⟨2041, -5, none⟩]

/-- Counterexample to claim C6 as stated: the first interval coalesced from
`rows24h` has `start_time = 600 ≠ 2040 = stop_time`, so it is not widened,
yet the slot written for it carries identical start and stop times 10:00,
because `strftime("%H:%M")` discards the date.  So a device program slot
with identical start and stop times is written. -/
theorem C6_counterexample :
    DevAction.write ⟨0, (10, 0), (10, 0), 10, 5000, false, false⟩
      ∈ (async_run_schedule_update allOk cfg0 true rows24h none).trace
    ∧ (raw_intervals (setModes rows24h)).head? = some ⟨600, 2040, Mode.discharge⟩ := by
  decide

/-- Claim C6 (amended): a zero-length interval is widened by one minute
before its stop is serialized, and a widened slot never carries identical
serialized start and stop times; an interval with distinct start and stop is
serialized unchanged (which, as serialization keeps only hour and minute, can
still collide when the span is a whole number of days). -/
theorem C6_normalization (cfg : DeviceConfig) (i : Nat) (iv : Interval) :
    (slotOf cfg i iv).start_t = strftimeHM iv.start_time
    ∧ (slotOf cfg i iv).stop_t
        = strftimeHM (if iv.start_time = iv.stop_time then iv.stop_time + 1 else iv.stop_time)
    ∧ (iv.start_time = iv.stop_time →
        (slotOf cfg i iv).start_t ≠ (slotOf cfg i iv).stop_t) := by
  refine ⟨rfl, rfl, fun h => ?_⟩
  obtain ⟨s, t, m⟩ := iv
  simp only at h
  subst h
  simp only [slotOf, strftimeHM, eq_self_iff_true, if_true, ite_true, Prod.mk.injEq, ne_eq,
    not_and]
  intro h1
  omega

/-- Witness for the amended C6 at a zero-length interval. -/
theorem C6_normalization_witness :
    (slotOf cfg0 0 ⟨5, 5, Mode.idle⟩).start_t ≠ (slotOf cfg0 0 ⟨5, 5, Mode.idle⟩).stop_t :=
  (C6_normalization cfg0 0 ⟨5, 5, Mode.idle⟩).2.2 rfl

/-- Assigning the mode column twice gives the same frame as assigning it
once: the column is recomputed from the power column each time. -/
theorem setModes_setModes (rows : List Row) : setModes (setModes rows) = setModes rows := by
  induction rows with
  | nil => rfl
  | cons r rest ih => simp [setModes] at ih ⊢

/-- Claim C9: the compilation pipeline is deterministic and idempotent:
re-running `generate_intervals` on the frame state left behind by a first run
returns the identical frame state and the identical interval schedule; the
only state touched between runs (the `mode` column) does not change the
result. -/
theorem C9_idempotent (rows : List Row) :
    generate_intervals ((generate_intervals rows).1) = generate_intervals rows := by
  cases rows with
  | nil => rfl
  | cons r rest =>
    have h1 : (generate_intervals (r :: rest)).1 = setModes (r :: rest) := rfl
    rw [h1]
    have h2 : setModes (r :: rest)
        = ⟨r.timestamp, r.power, some (get_mode r.power)⟩ :: setModes rest := rfl
    rw [h2, generate_intervals, generate_intervals, ← h2, setModes_setModes]

/-- Claim C8: on an empty reading sequence (or when no intervals are
generated) the cycle fails before any device contact: the trace is empty, so
no session is opened and disconnect is never invoked. -/
theorem C8_no_device_contact (dev : Device) (cfg : DeviceConfig)
    (load_ok : Bool) (rows : List Row) (nr0 : Option Nat)
    (h : rows = [] ∨ (generate_intervals rows).2 = []) :
    (async_run_schedule_update dev cfg load_ok rows nr0).success = false
    ∧ (async_run_schedule_update dev cfg load_ok rows nr0).trace = [] := by
  rcases h with h | h
  · subst h
    simp [async_run_schedule_update]
  · by_cases hl : load_ok = false ∨ rows = []
    · simp [async_run_schedule_update, hl]
    · simp [async_run_schedule_update, hl, h]

/-- Witness for C8 at the empty reading sequence. -/
theorem C8_no_device_contact_witness :
    (async_run_schedule_update allOk cfg0 true [] none).success = false
    ∧ (async_run_schedule_update allOk cfg0 true [] none).trace = [] :=
  C8_no_device_contact allOk cfg0 true [] none (Or.inl rfl)

/-- Two readings producing a successful two-real-interval (plus padding)
cycle. -/
def rowsC4 : List Row := [⟨0, -5, none⟩, ⟨1, 5, none⟩]

/-- Claim C4, against the code: a successful cycle returns `True`, and the
final programmed interval stops at minute 9, but the effective
`async_run_schedule_update` (the second definition in the class body, which
shadows the first) never assigns `self.next_run`, so the stored next-run
value remains `None` instead of the final interval's stop time. -/
theorem C4_next_run_never_stored :
    (async_run_schedule_update allOk cfg0 true rowsC4 none).success = true
    ∧ (async_run_schedule_update allOk cfg0 true rowsC4 none).next_run = none
    ∧ ((generate_intervals rowsC4).2.getLast?).map Interval.stop_time = some 9 := by
  decide

/-- `strftime("%H:%M")` depends only on the minute-of-day. -/
theorem strftimeHM_congr {a b : Nat} (h : a % 1440 = b % 1440) :
    strftimeHM a = strftimeHM b := by
  simp [strftimeHM, h]

/-- Counterexample to claim C10 as stated: the intervals `(600, 600)` and
`(600, 2040)` have boundaries that differ only in the date component
(600 and 2040 are both 10:00), yet their programmed slots differ, because
the zero-length widening compares full datetimes: the first is widened to
10:01 and the second is not. -/
theorem C10_counterexample :
    (600 : Nat) % 1440 = 600 % 1440 ∧ (600 : Nat) % 1440 = 2040 % 1440
    ∧ slotOf cfg0 0 ⟨600, 600, Mode.idle⟩ ≠ slotOf cfg0 0 ⟨600, 2040, Mode.idle⟩ := by
  decide

/-- Claim C10 (amended): only the hour and minute of each boundary reach the
device, so two intervals of equal mode whose boundaries agree modulo one day
and that agree on whether start equals stop are programmed as identical
slots; and an interval whose stop lies a whole day after its start is written
with a stop time-of-day equal to its start time-of-day. -/
theorem C10_hhmm_only (cfg : DeviceConfig) (i : Nat) (iv1 iv2 : Interval)
    (hm : iv1.mode = iv2.mode)
    (hs : iv1.start_time % 1440 = iv2.start_time % 1440)
    (ht : iv1.stop_time % 1440 = iv2.stop_time % 1440)
    (hz : iv1.start_time = iv1.stop_time ↔ iv2.start_time = iv2.stop_time) :
    slotOf cfg i iv1 = slotOf cfg i iv2
    ∧ (slotOf cfg i ⟨600, 2040, Mode.idle⟩).stop_t
        = (slotOf cfg i ⟨600, 2040, Mode.idle⟩).start_t := by
  constructor
  · obtain ⟨s1, t1, m1⟩ := iv1
    obtain ⟨s2, t2, m2⟩ := iv2
    simp only at hm hs ht hz
    subst hm
    simp only [slotOf, ProgramSlot.mk.injEq]
    refine ⟨trivial, strftimeHM_congr hs, ?_, trivial, trivial, trivial, trivial⟩
    by_cases hc : s1 = t1
    · rw [if_pos hc, if_pos (hz.mp hc)]
      exact strftimeHM_congr (by omega)
    · rw [if_neg hc, if_neg (fun h => hc (hz.mpr h))]
      exact strftimeHM_congr ht
  · simp [slotOf, strftimeHM]

/-- Witness for the amended C10: two intervals one day apart are programmed
as the same slot. -/
theorem C10_hhmm_only_witness :
    slotOf cfg0 0 ⟨600, 700, Mode.idle⟩ = slotOf cfg0 0 ⟨2040, 2140, Mode.idle⟩ :=
  (C10_hhmm_only cfg0 0 ⟨600, 700, Mode.idle⟩ ⟨2040, 2140, Mode.idle⟩ rfl
    (by decide) (by decide) (by decide)).1

/-- Every action emitted by the slot-writing loop is a write. -/
theorem writeSlots_writes (dev : Device) (cfg : DeviceConfig) :
    ∀ (ivs : List Interval) (i0 : Nat) (a : DevAction),
      a ∈ (writeSlots dev cfg i0 ivs).1 → ∃ s, a = DevAction.write s := by
  intro ivs
  induction ivs with
  | nil => intro i0 a h; simp [writeSlots] at h
  | cons iv rest ih =>
    intro i0 a h
    by_cases hw : dev.writeOk i0
    · simp only [writeSlots, if_pos hw, List.mem_cons] at h
      rcases h with h | h
      · exact ⟨_, h⟩
      · exact ih (i0 + 1) a h
    · simp only [writeSlots, if_neg hw, List.mem_singleton] at h
      exact ⟨_, h⟩

/-- If some slot in range fails to write, the loop reports failure. -/
theorem writeSlots_fails (dev : Device) (cfg : DeviceConfig) :
    ∀ (ivs : List Interval) (i0 m : Nat),
      dev.writeOk m = false → i0 ≤ m → m < i0 + ivs.length →
      (writeSlots dev cfg i0 ivs).2 = false := by
  intro ivs
  induction ivs with
  | nil => intro i0 m _ h1 h2; simp at h2; omega
  | cons iv rest ih =>
    intro i0 m hm h1 h2
    by_cases hw : dev.writeOk i0
    · have hne : i0 ≠ m := fun h => by rw [h, hm] at hw; simp at hw
      simp only [writeSlots, if_pos hw]
      exact ih (i0 + 1) m hm (by omega) (by simp at h2 ⊢; omega)
    · simp [writeSlots, hw]

/-- Once slot `m` fails, no write with a slot index above `m` is attempted. -/
theorem writeSlots_index_le (dev : Device) (cfg : DeviceConfig) :
    ∀ (ivs : List Interval) (i0 m : Nat),
      dev.writeOk m = false → i0 ≤ m →
      ∀ s, DevAction.write s ∈ (writeSlots dev cfg i0 ivs).1 → s.index ≤ m := by
  intro ivs
  induction ivs with
  | nil => intro i0 m _ _ s h; simp [writeSlots] at h
  | cons iv rest ih =>
    intro i0 m hm h1 s h
    by_cases hw : dev.writeOk i0
    · have hne : i0 ≠ m := fun h => by rw [h, hm] at hw; simp at hw
      simp only [writeSlots, if_pos hw, List.mem_cons] at h
      rcases h with h | h
      · have : s = slotOf cfg i0 iv := by injection h
        rw [this]
        exact h1
      · exact ih (i0 + 1) m hm (by omega) s h
    · simp only [writeSlots, if_neg hw, List.mem_singleton] at h
      have : s = slotOf cfg i0 iv := by injection h
      rw [this]
      exact h1

/-- Every slot index up to and including the first failing one is attempted,
provided all earlier writes succeed. -/
theorem writeSlots_attempts (dev : Device) (cfg : DeviceConfig) :
    ∀ (ivs : List Interval) (i0 m : Nat),
      (∀ j, i0 ≤ j → j < m → dev.writeOk j = true) →
      i0 ≤ m → m < i0 + ivs.length →
      ∃ s, DevAction.write s ∈ (writeSlots dev cfg i0 ivs).1 ∧ s.index = m := by
  intro ivs
  induction ivs with
  | nil => intro i0 m _ h1 h2; simp at h2; omega
  | cons iv rest ih =>
    intro i0 m hok h1 h2
    by_cases he : i0 = m
    · subst he
      by_cases hw : dev.writeOk i0
      · exact ⟨slotOf cfg i0 iv, by simp [writeSlots, hw], rfl⟩
      · exact ⟨slotOf cfg i0 iv, by simp [writeSlots, hw], rfl⟩
    · have hlt : i0 < m := by omega
      have hw : dev.writeOk i0 = true := hok i0 le_rfl hlt
      obtain ⟨s, hs, hsi⟩ := ih (i0 + 1) m (fun j hj1 hj2 => hok j (by omega) hj2)
        (by omega) (by simp at h2 ⊢; omega)
      exact ⟨s, by simp only [writeSlots, if_pos hw, List.mem_cons]; exact Or.inr hs, hsi⟩

/-- Claim C1: in a cycle whose schedule has six slots, connecting succeeds
and the write of slot index 3 raises: the cycle outcome is failure (whatever
the disconnect outcome), disconnect is invoked exactly once and as the final
action, no slot with index above 3 is ever written, and slots 0 through 3
are each attempted provided writes 0 through 2 succeed. -/
theorem C1_write_failure_aborts (dev : Device) (cfg : DeviceConfig)
    (rows : List Row) (nr0 : Option Nat)
    (hconn : dev.connectOk = true)
    (h3 : dev.writeOk 3 = false)
    (h012 : ∀ j, j < 3 → dev.writeOk j = true)
    (hlen : ((generate_intervals rows).2).length = 6) :
    (async_run_schedule_update dev cfg true rows nr0).success = false
    ∧ (async_run_schedule_update dev cfg true rows nr0).trace.count DevAction.disconnect = 1
    ∧ (async_run_schedule_update dev cfg true rows nr0).trace.getLast?
        = some DevAction.disconnect
    ∧ (∀ s : ProgramSlot,
        DevAction.write s ∈ (async_run_schedule_update dev cfg true rows nr0).trace →
        s.index ≤ 3)
    ∧ (∀ k, k < 4 → ∃ s : ProgramSlot,
        DevAction.write s ∈ (async_run_schedule_update dev cfg true rows nr0).trace
        ∧ s.index = k) := by
  have hrows : rows ≠ [] := by
    intro h
    rw [h] at hlen
    simp [generate_intervals] at hlen
  have hivs : (generate_intervals rows).2 ≠ [] := by
    intro h
    rw [h] at hlen
    simp at hlen
  have hcond : ¬((true : Bool) = false ∨ rows = []) := by simp [hrows]
  have hasync : async_run_schedule_update dev cfg true rows nr0
      = ⟨(program_inverter dev cfg (generate_intervals rows).2).2,
         (program_inverter dev cfg (generate_intervals rows).2).1, nr0⟩ := by
    simp only [async_run_schedule_update]
    rw [if_neg hcond, if_neg hivs]
  have hw2 : (writeSlots dev cfg 0 (generate_intervals rows).2).2 = false :=
    writeSlots_fails dev cfg _ 0 3 h3 (by omega) (by omega)
  have hprog : program_inverter dev cfg (generate_intervals rows).2
      = (DevAction.connect :: (writeSlots dev cfg 0 (generate_intervals rows).2).1
          ++ [DevAction.disconnect], false) := by
    simp only [program_inverter, hconn, hw2, if_true, if_false, Bool.false_eq_true]
  have hnod : DevAction.disconnect ∉ (writeSlots dev cfg 0 (generate_intervals rows).2).1 := by
    intro hmem
    obtain ⟨s, hs⟩ := writeSlots_writes dev cfg _ 0 _ hmem
    simp at hs
  refine ⟨?_, ?_, ?_, ?_, ?_⟩
  · rw [hasync, hprog]
  · rw [hasync, hprog]
    simp [List.count_cons, List.count_eq_zero_of_not_mem hnod]
  · rw [hasync, hprog]
    show (DevAction.connect :: (writeSlots dev cfg 0 (generate_intervals rows).2).1
        ++ [DevAction.disconnect]).getLast? = some DevAction.disconnect
    rw [show DevAction.connect :: (writeSlots dev cfg 0 (generate_intervals rows).2).1
        ++ [DevAction.disconnect]
        = (DevAction.connect :: (writeSlots dev cfg 0 (generate_intervals rows).2).1)
          ++ [DevAction.disconnect] from rfl]
    exact List.getLast?_concat _
  · intro s hs
    rw [hasync, hprog] at hs
    simp only [List.mem_cons, List.mem_append, List.mem_singleton] at hs
    rcases hs with (hs | hs) | hs
    · exact absurd hs (by simp)
    · exact writeSlots_index_le dev cfg _ 0 3 h3 (by omega) s hs
    · exact absurd hs (by simp)
  · intro k hk
    obtain ⟨s, hmem, hidx⟩ := writeSlots_attempts dev cfg ((generate_intervals rows).2) 0 k
      (fun j _ hj2 => h012 j (by omega)) (by omega) (by omega)
    refine ⟨s, ?_, hidx⟩
    rw [hasync, hprog]
    simp only [List.mem_cons, List.mem_append, List.mem_singleton]
    exact Or.inl (Or.inr hmem)

/-- A device whose slot writes succeed only for indices 0..2 and whose
disconnect also fails. -/
def dev3 : Device := ⟨true, fun i => decide (i < 3), true, true, false⟩

/-- Six alternating readings, coalescing into six one-reading intervals. -/
def rowsAlt : List Row :=
  [⟨0, 5, none⟩, ⟨1, -5, none⟩, ⟨2, 5, none⟩, ⟨3, -5, none⟩, ⟨4, 5, none⟩, ⟨5, -5, none⟩]

/-- Witness for C1: a concrete six-slot cycle failing at slot index 3, on a
device whose disconnect also fails. -/
theorem C1_write_failure_aborts_witness :
    (async_run_schedule_update dev3 cfg0 true rowsAlt none).success = false
    ∧ (async_run_schedule_update dev3 cfg0 true rowsAlt none).trace.count
        DevAction.disconnect = 1
    ∧ (async_run_schedule_update dev3 cfg0 true rowsAlt none).trace.getLast?
        = some DevAction.disconnect :=
  ⟨(C1_write_failure_aborts dev3 cfg0 rowsAlt none rfl (by decide) (by decide) (by decide)).1,
   (C1_write_failure_aborts dev3 cfg0 rowsAlt none rfl (by decide) (by decide) (by decide)).2.1,
   (C1_write_failure_aborts dev3 cfg0 rowsAlt none rfl (by decide) (by decide) (by decide)).2.2.1⟩

/-- The timestamp column of a frame. -/
def tsList (rows : List Row) : List Nat :=
  rows.map fun r => r.timestamp

@[simp]
theorem tsList_nil : tsList [] = [] := rfl

@[simp]
theorem tsList_cons (r : Row) (rest : List Row) :
    tsList (r :: rest) = r.timestamp :: tsList rest := rfl

/-- The last timestamp of `p :: tsList rows`. -/
def lastTs (p : Nat) : List Row → Nat
  | [] => p
  | r :: rest => lastTs r.timestamp rest

theorem lastTs_getLast : ∀ (rest : List Row) (p : Nat),
    (p :: tsList rest).getLast? = some (lastTs p rest) := by
  intro rest
  induction rest with
  | nil => intro p; rfl
  | cons r rest ih =>
    intro p
    rw [tsList_cons, List.getLast?_cons_cons]
    exact ih r.timestamp

/-- The coalescing loop always returns a nonempty list whose first interval
starts at the seeded start time. -/
theorem coalesceLoop_shape : ∀ (rest : List Row) (s p : Nat) (c : Mode),
    ∃ iv tl, coalesceLoop s c p rest = iv :: tl ∧ iv.start_time = s := by
  intro rest
  induction rest with
  | nil => intro s p c; exact ⟨⟨s, p, c⟩, [], rfl, rfl⟩
  | cons r rest ih =>
    intro s p c
    by_cases h : rowMode r ≠ c
    · exact ⟨⟨s, p, c⟩, coalesceLoop r.timestamp (rowMode r) r.timestamp rest,
        by simp only [coalesceLoop, if_pos h], rfl⟩
    · obtain ⟨iv, tl, heq, hst⟩ := ih s r.timestamp c
      exact ⟨iv, tl, by simp only [coalesceLoop, if_neg h]; exact heq, hst⟩

/-- On a sorted tail, the first interval moreover stops no earlier than the
previous timestamp. -/
theorem coalesceLoop_head_stop : ∀ (rest : List Row) (s p : Nat) (c : Mode),
    List.Chain (· < ·) p (tsList rest) →
    ∃ iv tl, coalesceLoop s c p rest = iv :: tl ∧ iv.start_time = s ∧ p ≤ iv.stop_time := by
  intro rest
  induction rest with
  | nil => intro s p c _; exact ⟨⟨s, p, c⟩, [], rfl, rfl, le_refl p⟩
  | cons r rest ih =>
    intro s p c hch
    rw [tsList_cons, List.chain_cons] at hch
    by_cases h : rowMode r ≠ c
    · exact ⟨⟨s, p, c⟩, coalesceLoop r.timestamp (rowMode r) r.timestamp rest,
        by simp only [coalesceLoop, if_pos h], rfl, le_refl p⟩
    · obtain ⟨iv, tl, heq, hst, hstop⟩ := ih s r.timestamp c hch.2
      exact ⟨iv, tl, by simp only [coalesceLoop, if_neg h]; exact heq, hst,
        le_of_lt (lt_of_lt_of_le hch.1 hstop)⟩

/-- The last interval stops at the last timestamp. -/
theorem coalesceLoop_last_stop : ∀ (rest : List Row) (s p : Nat) (c : Mode),
    ((coalesceLoop s c p rest).getLast?).map Interval.stop_time = some (lastTs p rest) := by
  intro rest
  induction rest with
  | nil => intro s p c; rfl
  | cons r rest ih =>
    intro s p c
    by_cases h : rowMode r ≠ c
    · simp only [coalesceLoop, if_pos h]
      obtain ⟨iv, tl, heq, _⟩ := coalesceLoop_shape rest r.timestamp r.timestamp (rowMode r)
      rw [heq, List.getLast?_cons_cons, ← heq]
      exact ih r.timestamp r.timestamp (rowMode r)
    · simp only [coalesceLoop, if_neg h, lastTs]
      exact ih s r.timestamp c

/-- On a sorted tail every produced interval starts no earlier than the
seeded start and is well-formed (`start ≤ stop`). -/
theorem coalesceLoop_bounds : ∀ (rest : List Row) (s p : Nat) (c : Mode),
    s ≤ p → List.Chain (· < ·) p (tsList rest) →
    ∀ iv ∈ coalesceLoop s c p rest, s ≤ iv.start_time ∧ iv.start_time ≤ iv.stop_time := by
  intro rest
  induction rest with
  | nil =>
    intro s p c hsp _ iv hiv
    rw [show coalesceLoop s c p [] = [⟨s, p, c⟩] from rfl, List.mem_singleton] at hiv
    subst hiv
    exact ⟨le_refl s, hsp⟩
  | cons r rest ih =>
    intro s p c hsp hch iv hiv
    rw [tsList_cons, List.chain_cons] at hch
    by_cases h : rowMode r ≠ c
    · rw [show coalesceLoop s c p (r :: rest)
          = ⟨s, p, c⟩ :: coalesceLoop r.timestamp (rowMode r) r.timestamp rest
          from by simp only [coalesceLoop, if_pos h], List.mem_cons] at hiv
      rcases hiv with hiv | hiv
      · subst hiv
        exact ⟨le_refl s, hsp⟩
      · have hb := ih r.timestamp r.timestamp (rowMode r) (le_refl _) hch.2 iv hiv
        exact ⟨le_trans hsp (le_trans (le_of_lt hch.1) hb.1), hb.2⟩
    · rw [show coalesceLoop s c p (r :: rest)
          = coalesceLoop s c r.timestamp rest
          from by simp only [coalesceLoop, if_neg h]] at hiv
      exact ih s r.timestamp c (le_trans hsp (le_of_lt hch.1)) hch.2 iv hiv

/-- On a sorted tail the produced intervals are pairwise disjoint and ordered:
each interval stops strictly before any later interval starts. -/
theorem coalesceLoop_pairwise : ∀ (rest : List Row) (s p : Nat) (c : Mode),
    s ≤ p → List.Chain (· < ·) p (tsList rest) →
    List.Pairwise (fun I J => I.stop_time < J.start_time) (coalesceLoop s c p rest) := by
  intro rest
  induction rest with
  | nil => intro s p c _ _; exact List.pairwise_singleton _ _
  | cons r rest ih =>
    intro s p c hsp hch
    rw [tsList_cons, List.chain_cons] at hch
    by_cases h : rowMode r ≠ c
    · rw [show coalesceLoop s c p (r :: rest)
          = ⟨s, p, c⟩ :: coalesceLoop r.timestamp (rowMode r) r.timestamp rest
          from by simp only [coalesceLoop, if_pos h]]
      refine List.pairwise_cons.mpr ⟨?_, ih r.timestamp r.timestamp (rowMode r) (le_refl _) hch.2⟩
      intro J hJ
      have hb := coalesceLoop_bounds rest r.timestamp r.timestamp (rowMode r)
        (le_refl _) hch.2 J hJ
      exact lt_of_lt_of_le hch.1 hb.1
    · rw [show coalesceLoop s c p (r :: rest)
          = coalesceLoop s c r.timestamp rest
          from by simp only [coalesceLoop, if_neg h]]
      exact ih s r.timestamp c (le_trans hsp (le_of_lt hch.1)) hch.2

/-- On a sorted tail every timestamp (the previous one and all in the tail)
is covered by some produced interval. -/
theorem coalesceLoop_cover : ∀ (rest : List Row) (s p : Nat) (c : Mode),
    s ≤ p → List.Chain (· < ·) p (tsList rest) →
    ∀ t ∈ p :: tsList rest, ∃ iv ∈ coalesceLoop s c p rest,
      iv.start_time ≤ t ∧ t ≤ iv.stop_time := by
  intro rest
  induction rest with
  | nil =>
    intro s p c hsp _ t ht
    rw [tsList_nil, List.mem_singleton] at ht
    subst ht
    exact ⟨⟨s, t, c⟩, List.mem_singleton_self _, hsp, le_refl t⟩
  | cons r rest ih =>
    intro s p c hsp hch t ht
    rw [tsList_cons, List.chain_cons] at hch
    rw [tsList_cons, List.mem_cons] at ht
    by_cases h : rowMode r ≠ c
    · rw [show coalesceLoop s c p (r :: rest)
          = ⟨s, p, c⟩ :: coalesceLoop r.timestamp (rowMode r) r.timestamp rest
          from by simp only [coalesceLoop, if_pos h]]
      rcases ht with ht | ht
      · subst ht
        exact ⟨⟨s, t, c⟩, List.mem_cons_self _ _, hsp, le_refl t⟩
      · obtain ⟨iv, hmem, h1, h2⟩ := ih r.timestamp r.timestamp (rowMode r)
          (le_refl _) hch.2 t ht
        exact ⟨iv, List.mem_cons_of_mem _ hmem, h1, h2⟩
    · rw [show coalesceLoop s c p (r :: rest)
          = coalesceLoop s c r.timestamp rest
          from by simp only [coalesceLoop, if_neg h]]
      rcases ht with ht | ht
      · subst ht
        obtain ⟨iv, tl, heq, hst, hstop⟩ :=
          coalesceLoop_head_stop rest s r.timestamp c hch.2
        refine ⟨iv, by rw [heq]; exact List.mem_cons_self _ _, ?_, ?_⟩
        · rw [hst]; exact hsp
        · exact le_trans (le_of_lt hch.1) hstop
      · exact ih s r.timestamp c (le_trans hsp (le_of_lt hch.1)) hch.2 t ht

/-- Consecutive produced intervals adjoin at consecutive timestamps: the
previous interval's stop and the next interval's start appear as adjacent
entries of the timestamp sequence. -/
theorem coalesceLoop_adjacent : ∀ (rest : List Row) (s p : Nat) (c : Mode),
    List.Chain' (fun I J => [I.stop_time, J.start_time] <:+: p :: tsList rest)
      (coalesceLoop s c p rest) := by
  intro rest
  induction rest with
  | nil => intro s p c; exact List.chain'_singleton _
  | cons r rest ih =>
    intro s p c
    by_cases h : rowMode r ≠ c
    · rw [show coalesceLoop s c p (r :: rest)
          = ⟨s, p, c⟩ :: coalesceLoop r.timestamp (rowMode r) r.timestamp rest
          from by simp only [coalesceLoop, if_pos h]]
      obtain ⟨iv, tl, heq, hst⟩ := coalesceLoop_shape rest r.timestamp r.timestamp (rowMode r)
      rw [heq, List.chain'_cons]
      constructor
      · rw [hst]
        exact ⟨[], tsList rest, rfl⟩
      · have := ih r.timestamp r.timestamp (rowMode r)
        rw [heq] at this
        exact this.imp fun a b hab => List.infix_cons hab
    · rw [show coalesceLoop s c p (r :: rest)
          = coalesceLoop s c r.timestamp rest
          from by simp only [coalesceLoop, if_neg h]]
      exact (ih s r.timestamp c).imp fun a b hab => List.infix_cons hab

/-- Claim C2: on a nonempty reading sequence with strictly ascending
timestamps, the coalescer output is nonempty; it starts at the first
reading's timestamp and stops at the last one's; every interval is
well-formed; the intervals are ordered and pairwise disjoint (no overlap);
every reading's timestamp is covered by an interval (no gap, and with
disjointness, covered exactly once); and each interval's start adjoins the
previous interval's stop at consecutive readings of the input. -/
theorem C2_coalescer (rows : List Row) (hne : rows ≠ [])
    (hsort : List.Chain' (· < ·) (tsList rows)) :
    raw_intervals rows ≠ []
    ∧ ((raw_intervals rows).head?).map Interval.start_time
        = (rows.head?).map Row.timestamp
    ∧ ((raw_intervals rows).getLast?).map Interval.stop_time
        = (rows.getLast?).map Row.timestamp
    ∧ (∀ iv ∈ raw_intervals rows, iv.start_time ≤ iv.stop_time)
    ∧ List.Pairwise (fun I J => I.stop_time < J.start_time) (raw_intervals rows)
    ∧ (∀ r ∈ rows, ∃ iv ∈ raw_intervals rows,
        iv.start_time ≤ r.timestamp ∧ r.timestamp ≤ iv.stop_time)
    ∧ List.Chain' (fun I J => [I.stop_time, J.start_time] <:+: tsList rows)
        (raw_intervals rows) := by
  cases rows with
  | nil => exact absurd rfl hne
  | cons r rest =>
    have hch : List.Chain (· < ·) r.timestamp (tsList rest) := hsort
    have hraw : raw_intervals (r :: rest)
        = coalesceLoop r.timestamp (rowMode r) r.timestamp rest := rfl
    obtain ⟨iv0, tl0, heq, hst⟩ :=
      coalesceLoop_shape rest r.timestamp r.timestamp (rowMode r)
    refine ⟨?_, ?_, ?_, ?_, ?_, ?_, ?_⟩
    · rw [hraw, heq]
      exact List.cons_ne_nil _ _
    · rw [hraw, heq]
      simp [hst]
    · rw [hraw, coalesceLoop_last_stop rest r.timestamp r.timestamp (rowMode r)]
      have h1 : (tsList (r :: rest)).getLast? = ((r :: rest).getLast?).map Row.timestamp := by
        rw [show tsList (r :: rest) = List.map (fun x => x.timestamp) (r :: rest) from rfl,
          List.getLast?_map]
      rw [← h1, tsList_cons, lastTs_getLast]
    · intro iv hiv
      exact (coalesceLoop_bounds rest r.timestamp r.timestamp (rowMode r)
        (le_refl _) hch iv (by rw [hraw] at hiv; exact hiv)).2
    · rw [hraw]
      exact coalesceLoop_pairwise rest r.timestamp r.timestamp (rowMode r) (le_refl _) hch
    · intro r' hr'
      have hts : r'.timestamp ∈ r.timestamp :: tsList rest := by
        rcases List.mem_cons.mp hr' with h | h
        · rw [h]
          exact List.mem_cons_self _ _
        · exact List.mem_cons_of_mem _ (List.mem_map_of_mem _ h)
      rw [hraw]
      exact coalesceLoop_cover rest r.timestamp r.timestamp (rowMode r)
        (le_refl _) hch r'.timestamp hts
    · rw [hraw, tsList_cons]
      exact coalesceLoop_adjacent rest r.timestamp r.timestamp (rowMode r)

/-- Witness for C2 on the Scenario A readings. -/
theorem C2_coalescer_witness :
    raw_intervals rows0 ≠ []
    ∧ ((raw_intervals rows0).head?).map Interval.start_time
        = (rows0.head?).map Row.timestamp
    ∧ ((raw_intervals rows0).getLast?).map Interval.stop_time
        = (rows0.getLast?).map Row.timestamp :=
  ⟨(C2_coalescer rows0 (by decide) (by simp [rows0, tsList, List.chain'_cons])).1,
   (C2_coalescer rows0 (by decide) (by simp [rows0, tsList, List.chain'_cons])).2.1,
   (C2_coalescer rows0 (by decide) (by simp [rows0, tsList, List.chain'_cons])).2.2.1⟩

end BillBuster
